import Mathlib

/-!
Formal model of the render-queue backend of SimpleGaussianSplatServer.

The model is a shallow embedding of the D1/SQLite query layer
(`src/render-queue/src/db/queries.ts`) and of the worker/feed routes
(`src/render-queue/src/routes/jobs.ts`, `feed.ts`, worker routes).
Tables are lists of rows; each exported query function becomes a pure
state transformer on those lists.  SQL `TEXT` columns are `String`,
`INTEGER` counters are `Int`, timestamps are `Nat`.  A single SQL
statement is one atomic step of the model, matching D1's per-statement
atomicity.
-/

namespace RenderQueue

/-- Row of the `jobs` table (see `JobRow` in `src/render-queue/src/types.ts`).
The `status` column stores one of the strings `queued`, `claimed`,
`processing`, `completed`, `failed`. -/
structure JobRow where
  id : String
  status : String
  created_at : Nat
  updated_at : Nat
  output_format : String
  max_frames : Nat
  training_iterations : Nat
  resolution : Nat
  video_key : Option String
  result_key : Option String
  stages : String
  error : Option String
  user_id : Option String
deriving DecidableEq, Repr

/-- The queued rows of the jobs table, in table order
(`SELECT ... FROM jobs WHERE status = 'queued'`). -/
def queuedJobs (jobs : List JobRow) : List JobRow :=
  jobs.filter (fun j => j.status == "queued")

/-- Number of queued jobs. -/
def queuedCount (jobs : List JobRow) : Nat :=
  (queuedJobs jobs).length

/-- Row with minimal `created_at` (`ORDER BY created_at ASC LIMIT 1`);
on ties the earlier row in table order wins. -/
def minByCreated : List JobRow → Option JobRow
  | [] => none
  | j :: l =>
    match minByCreated l with
    | none => some j
    | some b => if b.created_at < j.created_at then some b else some j

/-- The query `SELECT id FROM jobs WHERE status = 'queued' ORDER BY created_at ASC LIMIT 1`. -/
def oldestQueued (jobs : List JobRow) : Option JobRow :=
  minByCreated (queuedJobs jobs)

/-- The row produced by `SET status = 'claimed', updated_at = now`. -/
def claimedOf (j : JobRow) (now : Nat) : JobRow :=
  { j with status := "claimed", updated_at := now }

/-- Model of `claimOldestJob` (`src/render-queue/src/db/queries.ts`): one atomic
`UPDATE jobs SET status = 'claimed', updated_at = now WHERE id =
(SELECT id FROM jobs WHERE status = 'queued' ORDER BY created_at ASC LIMIT 1)
RETURNING *`.  Returns the claimed row (if any) and the new table. -/
def claimOldestJob (jobs : List JobRow) (now : Nat) : Option JobRow × List JobRow :=
  match oldestQueued jobs with
  | none => (none, jobs)
  | some j =>
      (some (claimedOf j now),
       jobs.map (fun r => if r.id = j.id then claimedOf r now else r))

/-- Run of `n` sequential `claim` calls (each call is one atomic statement, so any
interleaving of `n` concurrent callers is one such sequence).  Returns the
list of jobs handed out and the final table. -/
def claimRun (now : Nat) : Nat → List JobRow → List JobRow × List JobRow
  | 0, jobs => ([], jobs)
  | Nat.succ n, jobs =>
    match claimOldestJob jobs now with
    | (none, jobs1) => claimRun now n jobs1
    | (some j, jobs1) =>
      let r := claimRun now n jobs1
      (j :: r.1, r.2)

/-- Model of `updateJobStatus` (`queries.ts`): `UPDATE jobs SET status = ?,
updated_at = now [, stages = ?][, error = ?] WHERE id = ?`; returns
`meta.changes > 0`, i.e. whether some row matched the id.  There is no
condition on the current status. -/
def updateJobStatus (jobs : List JobRow) (i : String) (status : String)
    (stages : Option String) (error : Option String) (now : Nat) :
    Bool × List JobRow :=
  (jobs.any (fun j => j.id == i),
   jobs.map (fun j =>
     if j.id = i then
       { j with status := status, updated_at := now,
                stages := stages.getD j.stages,
                error := match error with | some e => some e | none => j.error }
     else j))

/-- Responses of `PUT /api/v1/worker/jobs/:id/status` (`routes/jobs.ts`). -/
inductive StatusUpdateResponse where
  | invalidStatus
  | jobNotFound
  | ok
deriving DecidableEq, Repr

/-- The status whitelist of the worker status route. -/
def validStatuses : List String := ["processing", "completed", "failed"]

/-- The `PUT /jobs/:id/status` worker route: rejects a body status outside
`validStatuses`, then runs `updateJobStatus` and maps `false` to 404. -/
def workerPutStatus (jobs : List JobRow) (i : String) (status : String)
    (stages : Option String) (error : Option String) (now : Nat) :
    StatusUpdateResponse × List JobRow :=
  if validStatuses.contains status then
    let r := updateJobStatus jobs i status stages error now
    if r.1 then (StatusUpdateResponse.ok, r.2)
    else (StatusUpdateResponse.jobNotFound, jobs)
  else (StatusUpdateResponse.invalidStatus, jobs)

/-- Row of the `posts` table (`migrations/0006_create_posts.sql`);
`id` is the primary key. -/
structure PostRow where
  id : String
  user_id : Option String
  result_key : String
  output_format : String
  title : Option String
  description : Option String
  view_count : Int
  like_count : Int
  comment_count : Int
  created_at : Nat
  updated_at : Nat
deriving DecidableEq, Repr

/-- The posts insert `INSERT INTO posts ...`: fails with a UNIQUE-constraint error when a
row with the same primary key `id` already exists. -/
def insertPost (posts : List PostRow) (p : PostRow) :
    Except String (List PostRow) :=
  if posts.any (fun q => q.id == p.id) then
    Except.error "UNIQUE constraint failed: posts.id"
  else Except.ok (posts ++ [p])

/-- Row of the `likes` table (`migrations/0005_create_likes.sql`, plus the
`post_id` column added by `0006`); the primary key is `(user_id, job_id)`. -/
structure LikeRow where
  user_id : String
  job_id : String
  post_id : Option String
  created_at : Nat
deriving DecidableEq, Repr

/-- Row of the `comments` table (DDL in `src/unnamed/part_000`):
`id TEXT PRIMARY KEY`, `post_id TEXT NOT NULL REFERENCES posts(id)`,
`user_id TEXT NOT NULL REFERENCES users(id)`,
`parent_id TEXT REFERENCES comments(id)`, `body TEXT NOT NULL`, and
timestamps.  The constraint-checked insert statement against this table
is `insertCommentD1` below. -/
structure CommentRow where
  id : String
  post_id : String
  user_id : String
  parent_id : Option String
  body : String
  created_at : Nat
deriving DecidableEq, Repr

/-- The D1 database: one list per table. -/
structure DB where
  jobs : List JobRow
  posts : List PostRow
  likes : List LikeRow
  comments : List CommentRow
deriving DecidableEq, Repr

/-- Model of `setJobResultKey` (`queries.ts`): unconditionally forces
`result_key := resultKey, status := 'completed'` on the matching job; when
a row matched, re-reads the job and inserts the corresponding post row.
The post insert is not guarded by an existence check, so a duplicate
primary key surfaces as an error; each statement commits separately
(there is no transaction), so the error carries the state at throw
time. -/
def setJobResultKey (db : DB) (i resultKey : String) (now : Nat) :
    Except (String × DB) (Bool × DB) :=
  let changed := db.jobs.any (fun j => j.id == i)
  let jobs1 := db.jobs.map (fun j =>
    if j.id = i then
      { j with result_key := some resultKey, status := "completed",
               updated_at := now }
    else j)
  if changed then
    let db1 : DB := { db with jobs := jobs1 }
    match jobs1.find? (fun j => j.id == i) with
    | none => Except.ok (true, db1)
    | some job =>
        match insertPost db1.posts
            { id := job.id, user_id := job.user_id, result_key := resultKey,
              output_format := job.output_format, title := none,
              description := none, view_count := 0, like_count := 0,
              comment_count := 0, created_at := now, updated_at := now } with
        | Except.error e => Except.error (e, db1)
        | Except.ok posts1 => Except.ok (true, { db1 with posts := posts1 })
  else Except.ok (false, db)

/-- Model of `insertLike` (`queries.ts`): `INSERT INTO likes (user_id, job_id,
post_id) VALUES (?, postId, postId)`; a UNIQUE violation of the
`(user_id, job_id)` primary key is caught and reported as `false`
without touching the counter; on a fresh insert the post's `like_count`
is incremented. -/
def insertLike (db : DB) (userId postId : String) (now : Nat) : Bool × DB :=
  if db.likes.any (fun l => l.user_id == userId && l.job_id == postId) then
    (false, db)
  else
    (true,
     { db with
       likes := db.likes ++
         [{ user_id := userId, job_id := postId, post_id := some postId,
            created_at := now }],
       posts := db.posts.map (fun p =>
         if p.id = postId then { p with like_count := p.like_count + 1 }
         else p) })

/-- Model of `removeLike` (`queries.ts`): `DELETE FROM likes WHERE user_id = ? AND
post_id = ?`; when at least one row was deleted, the post's `like_count`
is decremented with a floor at 0. -/
def removeLike (db : DB) (userId postId : String) : Bool × DB :=
  let changes :=
    db.likes.countP (fun l => l.user_id == userId && l.post_id == some postId)
  let likes1 :=
    db.likes.filter (fun l => !(l.user_id == userId && l.post_id == some postId))
  if 0 < changes then
    (true,
     { db with
       likes := likes1,
       posts := db.posts.map (fun p =>
         if p.id = postId then { p with like_count := max 0 (p.like_count - 1) }
         else p) })
  else (false, db)

/-- Number of surviving Like rows for a post. -/
def likesFor (db : DB) (pid : String) : Nat :=
  db.likes.countP (fun l => l.post_id == some pid)

/-- A like or unlike call, for finite call sequences. -/
inductive LikeOp where
  | like (userId postId : String) (now : Nat)
  | unlike (userId postId : String)
deriving DecidableEq, Repr

def applyLikeOp (db : DB) : LikeOp → DB
  | LikeOp.like u p n => (insertLike db u p n).2
  | LikeOp.unlike u p => (removeLike db u p).2

def applyLikeOps (db : DB) (ops : List LikeOp) : DB :=
  ops.foldl applyLikeOp db

/-- Consistency of the likes state: every row carries its post id in both
the legacy `job_id` column and the `post_id` column, the `(user_id,
job_id)` primary key holds, and every post's denormalized `like_count`
equals its number of surviving Like rows. -/
def LikesConsistent (db : DB) : Prop :=
  (∀ l ∈ db.likes, l.post_id = some l.job_id) ∧
  List.Pairwise
    (fun a b => ¬(a.user_id = b.user_id ∧ a.job_id = b.job_id)) db.likes ∧
  ∀ p ∈ db.posts, p.like_count = (likesFor db p.id : Int)

/-- The reply-flattening lookup of `insertComment`: if the declared parent
exists and is itself a reply, use that parent's own parent instead. -/
def resolveParentId (comments : List CommentRow) : Option String → Option String
  | none => none
  | some p =>
    match comments.find? (fun c => c.id == p) with
    | some parent =>
      match parent.parent_id with
      | some q => some q
      | none => some p
    | none => some p

/-- Model of the success path of `insertComment` (`queries.ts`):
resolves the parent per `resolveParentId`, writes the row, and
increments the post's `comment_count` (the decorative author
display-name join is omitted).  The table's primary-key and foreign-key
constraints (see `CommentRow`) are modelled in `insertCommentD1`, which
delegates here when every constraint holds; theorems stated directly
over `insertComment` concern inputs on which the constraints are
satisfied, so the two models agree there. -/
def insertComment (db : DB) (i postId userId : String)
    (parentId : Option String) (body : String) (now : Nat) : CommentRow × DB :=
  let row : CommentRow :=
    { id := i, post_id := postId, user_id := userId,
      parent_id := resolveParentId db.comments parentId,
      body := body, created_at := now }
  (row,
   { db with
     comments := db.comments ++ [row],
     posts := db.posts.map (fun p =>
       if p.id = postId then { p with comment_count := p.comment_count + 1 }
       else p) })

/-- Constraint-checked model of the comments `INSERT ... RETURNING *`
against the table of `src/unnamed/part_000`, with D1's foreign-key
enforcement: the `id` primary key and the `post_id`, `user_id` and
`parent_id` references must hold, the parent reference being checked —
as SQLite does for an immediate foreign key — against the table as it
stands after the insert, so a row referencing its own fresh id passes.
The users table, which no other modelled operation reads, is passed as
its list of user ids.  A violated constraint makes the statement throw
before the counter `UPDATE` runs, so the error carries the unchanged
state; on success the call is exactly `insertComment`. -/
def insertCommentD1 (users : List String) (db : DB)
    (i postId userId : String) (parentId : Option String)
    (body : String) (now : Nat) :
    Except (String × DB) (CommentRow × DB) :=
  if db.comments.any (fun c => c.id == i) then
    Except.error ("UNIQUE constraint failed: comments.id", db)
  else if db.posts.any (fun p => p.id == postId) then
    if users.contains userId then
      match resolveParentId db.comments parentId with
      | none => Except.ok (insertComment db i postId userId parentId body now)
      | some rp =>
        if db.comments.any (fun c => c.id == rp) || rp == i then
          Except.ok (insertComment db i postId userId parentId body now)
        else Except.error ("FOREIGN KEY constraint failed", db)
    else Except.error ("FOREIGN KEY constraint failed", db)
  else Except.error ("FOREIGN KEY constraint failed", db)

/-- Model of `deleteComment` (`queries.ts`): ownership check, cascade delete of
direct replies for a top-level comment, deletion of the comment itself,
and a floored decrement of the post's `comment_count` by the number of
rows removed. -/
def deleteComment (db : DB) (commentId userId : String) :
    (Bool × Nat) × DB :=
  match db.comments.find? (fun c => c.id == commentId) with
  | none => ((false, 0), db)
  | some comment =>
    if comment.user_id = userId then
      let replyChanges :=
        if comment.parent_id = none then
          db.comments.countP (fun c => c.parent_id == some commentId)
        else 0
      let deletedCount := 1 + replyChanges
      let comments1 :=
        if comment.parent_id = none then
          db.comments.filter (fun c => !(c.parent_id == some commentId))
        else db.comments
      let comments2 := comments1.filter (fun c => !(c.id == commentId))
      ((true, deletedCount),
       { db with
         comments := comments2,
         posts := db.posts.map (fun p =>
           if p.id = comment.post_id then
             { p with
               comment_count := max 0 (p.comment_count - (deletedCount : Int)) }
           else p) })
    else ((false, 0), db)

/-- Responses of `DELETE /api/v1/feed/:id/comments/:commentId`. -/
inductive CommentDeleteResponse where
  | notFound
  | okDeleted (deletedCount : Nat)
deriving DecidableEq, Repr

/-- The comment-delete route (`routes/feed.ts`): both the nonexistent-id
case and the wrong-owner case collapse into the same 404 response. -/
def deleteCommentRoute (db : DB) (commentId userId : String) :
    CommentDeleteResponse × DB :=
  let r := deleteComment db commentId userId
  if r.1.1 then (CommentDeleteResponse.okDeleted r.1.2, r.2)
  else (CommentDeleteResponse.notFound, r.2)

/-- Responses of `POST /api/v1/feed/:id/comments`. -/
inductive CommentCreateResponse where
  | badRequest (msg : String)
  | created (item : CommentRow)
deriving DecidableEq, Repr

/-- JavaScript `String.prototype.trim`: strip leading and trailing
whitespace. -/
def trimmed (s : String) : String :=
  ⟨((s.data.dropWhile Char.isWhitespace).reverse.dropWhile
      Char.isWhitespace).reverse⟩

/-- The comment-create route (`routes/feed.ts`): validates the trimmed
body, then runs the constraint-checked insert (the route's id comes
from a fresh random UUID).  The handler does not catch the statement's
errors, so a constraint violation propagates (an HTTP 500) instead of a
created response. -/
def postCommentRoute (users : List String) (db : DB)
    (postId userId : String) (bodyText : String)
    (parentId : Option String) (freshId : String) (now : Nat) :
    Except (String × DB) (CommentCreateResponse × DB) :=
  let text := trimmed bodyText
  if text.length = 0 then
    Except.ok (CommentCreateResponse.badRequest "Comment body is required", db)
  else if 1000 < text.length then
    Except.ok
      (CommentCreateResponse.badRequest
        "Comment must be 1000 characters or fewer", db)
  else
    match insertCommentD1 users db freshId postId userId parentId text now with
    | Except.error e => Except.error e
    | Except.ok r => Except.ok (CommentCreateResponse.created r.1, r.2)

/-- The depth-at-most-one invariant of the stored comment tree: the parent
of a stored comment, when itself stored, is a top-level comment. -/
def CommentDepthLe1 (comments : List CommentRow) : Prop :=
  ∀ c ∈ comments, ∀ d ∈ comments, c.parent_id = some d.id → d.parent_id = none

/-- Model of `incrementViewCount` (`queries.ts`): `UPDATE posts SET view_count =
view_count + 1 WHERE id = ?`; returns whether a row matched. -/
def incrementViewCount (db : DB) (i : String) : Bool × DB :=
  (db.posts.any (fun p => p.id == i),
   { db with posts := db.posts.map (fun p =>
       if p.id = i then { p with view_count := p.view_count + 1 } else p) })

/-- The JSON body of the view route's reply. -/
structure OkResponse where
  ok : Bool
deriving DecidableEq, Repr

/-- Route `POST /api/v1/feed/:id/view` (`routes/feed.ts`): replies `ok` at once
and defers the increment via `waitUntil`; the increment's outcome never
reaches the caller. -/
def postViewRoute (db : DB) (i : String) : OkResponse × DB :=
  ({ ok := true }, (incrementViewCount db i).2)

/-- The recency-decay term `86400.0 / (age_seconds + 3600)` of the feed
score (SQLite REAL arithmetic modelled over the rationals). -/
def decayTerm (age : Nat) : ℚ :=
  86400 / ((age : ℚ) + 3600)

/-- The feed score of a post at wall-clock time `now`:
`view_count * 0.3 + like_count * 1.0 + 86400 / (age_seconds + 3600)`. -/
def postScore (now : Nat) (p : PostRow) : ℚ :=
  (p.view_count : ℚ) * (3 / 10) + (p.like_count : ℚ) * 1 +
    decayTerm (now - p.created_at)

/-- The `ORDER BY (score) DESC` relation: `p` may come before `q`. -/
def feedRel (now : Nat) (p q : PostRow) : Prop :=
  postScore now q ≤ postScore now p

instance (now : Nat) : DecidableRel (feedRel now) :=
  fun p q => inferInstanceAs (Decidable (postScore now q ≤ postScore now p))

instance (now : Nat) : IsTotal PostRow (feedRel now) :=
  ⟨fun p q => le_total (postScore now q) (postScore now p)⟩

instance (now : Nat) : IsTrans PostRow (feedRel now) :=
  ⟨fun _ _ _ hab hbc => le_trans hbc hab⟩

/-- The posts table ordered by descending score. -/
def sortByScore (now : Nat) (posts : List PostRow) : List PostRow :=
  List.insertionSort (feedRel now) posts

/-- Model of `getFeedItems` (`queries.ts`): posts ordered by descending score,
then `LIMIT ? OFFSET ?` (the decorative author join is omitted). -/
def getFeedItems (db : DB) (now limit offset : Nat) : List PostRow :=
  ((sortByScore now db.posts).drop offset).take limit

/-- Sample rows for concrete evaluations. -/
def sampleJob : JobRow :=
  { id := "a", status := "queued", created_at := 1, updated_at := 1,
    output_format := "splat", max_frames := 10, training_iterations := 100,
    resolution := 512, video_key := some "v", result_key := none,
    stages := "[]", error := none, user_id := some "u1" }

def sampleJob2 : JobRow := { sampleJob with id := "b", created_at := 2 }

def sampleJobs : List JobRow := [sampleJob, sampleJob2]

def failedJob : JobRow := { sampleJob with id := "f", status := "failed" }

def samplePost : PostRow :=
  { id := "p1", user_id := some "u1", result_key := "k1",
    output_format := "splat", title := none, description := none,
    view_count := 0, like_count := 0, comment_count := 0,
    created_at := 1, updated_at := 1 }

def topComment : CommentRow :=
  { id := "c1", post_id := "p1", user_id := "u1", parent_id := none,
    body := "hello", created_at := 1 }

def replyComment : CommentRow :=
  { id := "c2", post_id := "p1", user_id := "u2", parent_id := some "c1",
    body := "hi", created_at := 2 }

def replyComment2 : CommentRow :=
  { id := "c3", post_id := "p1", user_id := "u3", parent_id := some "c1",
    body := "yo", created_at := 3 }

/-- A store with one post carrying a top-level comment and two
replies. -/
def commentsDB : DB :=
  DB.mk [] [{ samplePost with comment_count := 4 }] []
    [topComment, replyComment, replyComment2]

end RenderQueue

namespace RenderQueue

lemma minByCreated_eq_none_iff (l : List JobRow) :
    minByCreated l = none ↔ l = [] := by
  cases l with
  | nil => simp [minByCreated]
  | cons j l =>
    simp only [minByCreated]
    cases minByCreated l with
    | none => simp
    | some b => by_cases h : b.created_at < j.created_at <;> simp [h]

lemma minByCreated_mem {l : List JobRow} {j : JobRow}
    (h : minByCreated l = some j) : j ∈ l := by
  induction l with
  | nil => simp [minByCreated] at h
  | cons a l ih =>
    simp only [minByCreated] at h
    cases hm : minByCreated l with
    | none => rw [hm] at h; simp at h; simp [h]
    | some b =>
      rw [hm] at h
      by_cases hlt : b.created_at < a.created_at
      · simp [hlt] at h; subst h; exact List.mem_cons_of_mem _ (ih hm)
      · simp [hlt] at h; simp [h]

lemma minByCreated_min (l : List JobRow) :
    ∀ {j : JobRow}, minByCreated l = some j →
      ∀ q ∈ l, j.created_at ≤ q.created_at := by
  induction l with
  | nil => intro j h; simp [minByCreated] at h
  | cons a l ih =>
    intro j h q hq
    simp only [minByCreated] at h
    cases hm : minByCreated l with
    | none =>
      rw [hm] at h; simp at h; subst h
      rcases List.mem_cons.mp hq with rfl | hmem
      · exact le_refl _
      · exact absurd ((minByCreated_eq_none_iff l).mp hm ▸ hmem) (List.not_mem_nil q)
    | some b =>
      rw [hm] at h
      by_cases hlt : b.created_at < a.created_at
      · simp [hlt] at h; subst h
        rcases List.mem_cons.mp hq with rfl | hmem
        · exact le_of_lt hlt
        · exact ih hm q hmem
      · simp [hlt] at h; subst h
        rcases List.mem_cons.mp hq with rfl | hmem
        · exact le_refl _
        · exact le_trans (not_lt.mp hlt) (ih hm q hmem)

lemma oldestQueued_spec {jobs : List JobRow} {j : JobRow}
    (h : oldestQueued jobs = some j) :
    j ∈ jobs ∧ j.status = "queued" ∧
      ∀ q ∈ jobs, q.status = "queued" → j.created_at ≤ q.created_at := by
  have hmem := minByCreated_mem h
  have hj := List.mem_filter.mp hmem
  refine ⟨hj.1, by simpa using hj.2, ?_⟩
  intro q hq hqs
  exact minByCreated_min _ h q
    (List.mem_filter.mpr ⟨hq, by simp [hqs]⟩)

lemma oldestQueued_eq_none_iff (jobs : List JobRow) :
    oldestQueued jobs = none ↔ queuedCount jobs = 0 := by
  unfold oldestQueued queuedCount
  rw [minByCreated_eq_none_iff, List.length_eq_zero]

lemma claimOldestJob_none {jobs : List JobRow} {now : Nat}
    (h : oldestQueued jobs = none) :
    claimOldestJob jobs now = (none, jobs) := by
  simp [claimOldestJob, h]

lemma claimOldestJob_some {jobs : List JobRow} {now : Nat} {j : JobRow}
    (h : oldestQueued jobs = some j) :
    claimOldestJob jobs now =
      (some (claimedOf j now),
       jobs.map (fun r => if r.id = j.id then claimedOf r now else r)) := by
  simp [claimOldestJob, h]

lemma claimedOf_id (j : JobRow) (now : Nat) : (claimedOf j now).id = j.id := rfl

lemma claimStep_ids (jobs : List JobRow) (now : Nat) :
    (claimOldestJob jobs now).2.map JobRow.id = jobs.map JobRow.id := by
  cases h : oldestQueued jobs with
  | none => rw [claimOldestJob_none h]
  | some j =>
    rw [claimOldestJob_some h]
    simp only [List.map_map]
    apply List.map_congr_left
    intro r _
    by_cases hr : r.id = j.id <;> simp [hr, claimedOf]

/-- Claiming only turns a queued row into a claimed one: any row of the
new table that is still queued was already a row of the old table. -/
lemma claimStep_queued_mem {jobs : List JobRow} {now : Nat} {r : JobRow}
    (hr : r ∈ (claimOldestJob jobs now).2) (hq : r.status = "queued") :
    r ∈ jobs := by
  cases h : oldestQueued jobs with
  | none => rw [claimOldestJob_none h] at hr; exact hr
  | some j =>
    rw [claimOldestJob_some h] at hr
    rcases List.mem_map.mp hr with ⟨x, hx, hxr⟩
    by_cases hid : x.id = j.id
    · rw [if_pos hid] at hxr
      subst hxr
      simp [claimedOf] at hq
    · rw [if_neg hid] at hxr
      exact hxr ▸ hx

/-- After a claim step, every row carrying the claimed job's id is claimed. -/
lemma claimStep_claimed_id {jobs : List JobRow} {now : Nat} {j : JobRow}
    (h : oldestQueued jobs = some j) :
    ∀ x ∈ (claimOldestJob jobs now).2, x.id = j.id → x.status = "claimed" := by
  intro x hx hid
  rw [claimOldestJob_some h] at hx
  rcases List.mem_map.mp hx with ⟨y, _, hyx⟩
  by_cases hy : y.id = j.id
  · rw [if_pos hy] at hyx; subst hyx; rfl
  · rw [if_neg hy] at hyx; subst hyx; exact absurd hid hy

/-- A claim step never revives a row: ids that had no queued row still
have no queued row. -/
lemma claimStep_notQueued {jobs : List JobRow} {now : Nat} {a : String}
    (h : ∀ x ∈ jobs, x.id = a → ¬ x.status = "queued") :
    ∀ x ∈ (claimOldestJob jobs now).2, x.id = a → ¬ x.status = "queued" := by
  intro x hx hid hq
  exact h x (claimStep_queued_mem hx hq) hid hq

/-- A claim step keeps already-claimed ids claimed. -/
lemma claimStep_keep_claimed {jobs : List JobRow} {now : Nat} {a : String}
    (h : ∀ x ∈ jobs, x.id = a → x.status = "claimed") :
    ∀ x ∈ (claimOldestJob jobs now).2, x.id = a → x.status = "claimed" := by
  intro x hx hid
  cases hoq : oldestQueued jobs with
  | none => rw [claimOldestJob_none hoq] at hx; exact h x hx hid
  | some j =>
    rw [claimOldestJob_some hoq] at hx
    rcases List.mem_map.mp hx with ⟨y, hy, hyx⟩
    by_cases hyid : y.id = j.id
    · rw [if_pos hyid] at hyx; subst hyx; rfl
    · rw [if_neg hyid] at hyx; subst hyx; exact h y hy hid

/-- With unique job ids, a successful claim step removes exactly one row
from the queued set. -/
lemma claimStep_queuedCount {jobs : List JobRow} {now : Nat} {j : JobRow}
    (hids : (jobs.map JobRow.id).Nodup)
    (h : oldestQueued jobs = some j) :
    queuedCount (claimOldestJob jobs now).2 + 1 = queuedCount jobs := by
  obtain ⟨hmem, hq, -⟩ := oldestQueued_spec h
  obtain ⟨l₁, l₂, rfl⟩ := List.append_of_mem hmem
  rw [claimOldestJob_some h]
  have hids' : j.id ∉ l₁.map JobRow.id ∧ j.id ∉ l₂.map JobRow.id := by
    rw [List.map_append, List.map_cons, List.nodup_append] at hids
    exact ⟨fun hc => hids.2.2 hc (List.mem_cons_self _ _),
           fun hc => (List.nodup_cons.mp hids.2.1).1 hc⟩
  have hne₁ : ∀ r ∈ l₁, ¬ r.id = j.id := fun r hr hc =>
    hids'.1 (hc ▸ List.mem_map_of_mem JobRow.id hr)
  have hne₂ : ∀ r ∈ l₂, ¬ r.id = j.id := fun r hr hc =>
    hids'.2 (hc ▸ List.mem_map_of_mem JobRow.id hr)
  have h1 : ∀ r ∈ l₁, (if r.id = j.id then claimedOf r now else r) = r :=
    fun r hr => if_neg (hne₁ r hr)
  have h2 : ∀ r ∈ l₂, (if r.id = j.id then claimedOf r now else r) = r :=
    fun r hr => if_neg (hne₂ r hr)
  have hmap₁ : l₁.map (fun r => if r.id = j.id then claimedOf r now else r) = l₁ := by
    rw [List.map_congr_left h1]; exact List.map_id _
  have hmap₂ : l₂.map (fun r => if r.id = j.id then claimedOf r now else r) = l₂ := by
    rw [List.map_congr_left h2]; exact List.map_id _
  simp only [List.map_append, List.map_cons, hmap₁, hmap₂, if_pos rfl]
  simp [queuedCount, queuedJobs, List.filter_append, claimedOf, hq]
  omega

lemma claimRun_succ_none {jobs : List JobRow} {now n : Nat}
    (h : oldestQueued jobs = none) :
    claimRun now (n + 1) jobs = claimRun now n jobs := by
  simp [claimRun, claimOldestJob_none h]

lemma claimRun_succ_some {jobs : List JobRow} {now n : Nat} {j : JobRow}
    (h : oldestQueued jobs = some j) :
    claimRun now (n + 1) jobs =
      (claimedOf j now ::
        (claimRun now n
          (jobs.map (fun r => if r.id = j.id then claimedOf r now else r))).1,
       (claimRun now n
          (jobs.map (fun r => if r.id = j.id then claimedOf r now else r))).2) := by
  simp [claimRun, claimOldestJob_some h]

lemma claimRun_keep_claimed {now : Nat} (n : Nat) :
    ∀ (jobs : List JobRow) (a : String),
      (∀ x ∈ jobs, x.id = a → x.status = "claimed") →
      ∀ x ∈ (claimRun now n jobs).2, x.id = a → x.status = "claimed" := by
  induction n with
  | zero => intro jobs a h x hx; exact h x hx
  | succ n ih =>
    intro jobs a h x hx hid
    cases hoq : oldestQueued jobs with
    | none =>
      rw [claimRun_succ_none hoq] at hx
      exact ih jobs a h x hx hid
    | some j =>
      rw [claimRun_succ_some hoq] at hx
      have hstep := @claimStep_keep_claimed jobs now a h
      rw [claimOldestJob_some hoq] at hstep
      exact ih _ a hstep x hx hid

/-- Core behaviour of a run of `n` sequential `claim` calls, assuming the
primary key on `jobs.id`: exactly `min n (queuedCount jobs)` jobs are
handed out, with pairwise distinct ids, each one a formerly queued job
returned in `claimed` state, and each handed-out id is `claimed` in the
final table. -/
lemma claimRun_spec (now n : Nat) :
    ∀ (jobs : List JobRow), (jobs.map JobRow.id).Nodup →
      (claimRun now n jobs).1.length = min n (queuedCount jobs) ∧
      ((claimRun now n jobs).1.map JobRow.id).Nodup ∧
      (∀ r ∈ (claimRun now n jobs).1,
        ∃ j ∈ jobs, j.status = "queued" ∧ r = claimedOf j now) ∧
      (∀ r ∈ (claimRun now n jobs).1, ∀ x ∈ (claimRun now n jobs).2,
        x.id = r.id → x.status = "claimed") := by
  induction n with
  | zero =>
    intro jobs _
    refine ⟨by simp [claimRun], by simp [claimRun], ?_, ?_⟩ <;>
      simp [claimRun]
  | succ n ih =>
    intro jobs hids
    cases hoq : oldestQueued jobs with
    | none =>
      have hqc : queuedCount jobs = 0 := (oldestQueued_eq_none_iff jobs).mp hoq
      rw [claimRun_succ_none hoq]
      obtain ⟨hlen, hnd, hmem, hfin⟩ := ih jobs hids
      exact ⟨by rw [hlen, hqc]; simp, hnd, hmem, hfin⟩
    | some j =>
      have hstep := @claimOldestJob_some jobs now j hoq
      have hids1 : ((jobs.map
          (fun r => if r.id = j.id then claimedOf r now else r)).map JobRow.id).Nodup := by
        have hid := claimStep_ids jobs now
        rw [hstep] at hid
        rw [hid]; exact hids
      have hqc : queuedCount (jobs.map
          (fun r => if r.id = j.id then claimedOf r now else r)) + 1 =
          queuedCount jobs := by
        have := @claimStep_queuedCount jobs now j hids hoq
        rwa [hstep] at this
      obtain ⟨hlen, hnd, hmem, hfin⟩ := ih _ hids1
      have hclmid : ∀ x ∈ (jobs.map
          (fun r => if r.id = j.id then claimedOf r now else r)),
          x.id = j.id → x.status = "claimed" := by
        have := @claimStep_claimed_id jobs now j hoq
        rwa [hstep] at this
      rw [claimRun_succ_some hoq]
      refine ⟨?_, ?_, ?_, ?_⟩
      · simp only [List.length_cons, hlen]
        omega
      · simp only [List.map_cons, List.nodup_cons]
        refine ⟨?_, hnd⟩
        intro hc
        rcases List.mem_map.mp hc with ⟨r, hr, hrid⟩
        rcases hmem r hr with ⟨j0, hj0, hj0q, rfl⟩
        have : j0.id = j.id := hrid
        exact absurd (hclmid j0 hj0 this) (by simp [hj0q])
      · intro r hr
        rcases List.mem_cons.mp hr with rfl | hr'
        · obtain ⟨hjm, hjq, -⟩ := oldestQueued_spec hoq
          exact ⟨j, hjm, hjq, rfl⟩
        · rcases hmem r hr' with ⟨j0, hj0, hj0q, rfl⟩
          have hj0m : j0 ∈ jobs := by
            have : j0 ∈ (claimOldestJob jobs now).2 := by rw [hstep]; exact hj0
            exact claimStep_queued_mem this hj0q
          exact ⟨j0, hj0m, hj0q, rfl⟩
      · intro r hr x hx hxid
        rcases List.mem_cons.mp hr with rfl | hr'
        · exact claimRun_keep_claimed n _ j.id hclmid x hx hxid
        · exact hfin r hr' x hx hxid

/-- C1: `claim()` atomically selects the single oldest queued job
(ordered by `created_at` ascending) and transitions it to `claimed` as
one conditional update-and-return; across any sequence of `n` atomic
claim calls against a table with unique job ids (`n` concurrent callers
serialize into such a sequence), exactly `min n M` calls return a job
(`M` the number of queued jobs), no two calls receive the same job,
every returned job was queued and comes back claimed and stays claimed
in the final table, and with no queued job the call returns `none`
rather than an error. -/
theorem claim_run_atomic_correct (jobs : List JobRow) (now n : Nat)
    (hids : (jobs.map JobRow.id).Nodup) :
    (∀ j, oldestQueued jobs = some j →
      j ∈ jobs ∧ j.status = "queued" ∧
      (∀ q ∈ jobs, q.status = "queued" → j.created_at ≤ q.created_at) ∧
      claimOldestJob jobs now =
        (some (claimedOf j now),
         jobs.map (fun r => if r.id = j.id then claimedOf r now else r))) ∧
    (queuedCount jobs = 0 → claimOldestJob jobs now = (none, jobs)) ∧
    (claimRun now n jobs).1.length = min n (queuedCount jobs) ∧
    ((claimRun now n jobs).1.map JobRow.id).Nodup ∧
    (∀ r ∈ (claimRun now n jobs).1,
      r.status = "claimed" ∧
      ∃ j ∈ jobs, j.status = "queued" ∧ r = claimedOf j now) ∧
    (∀ r ∈ (claimRun now n jobs).1, ∀ x ∈ (claimRun now n jobs).2,
      x.id = r.id → x.status = "claimed") := by
  obtain ⟨hlen, hnd, hmem, hfin⟩ := claimRun_spec now n jobs hids
  refine ⟨?_, ?_, hlen, hnd, ?_, hfin⟩
  · intro j hj
    obtain ⟨h1, h2, h3⟩ := oldestQueued_spec hj
    exact ⟨h1, h2, h3, claimOldestJob_some hj⟩
  · intro h0
    exact claimOldestJob_none ((oldestQueued_eq_none_iff jobs).mpr h0)
  · intro r hr
    obtain ⟨j, hjm, hjq, rfl⟩ := hmem r hr
    exact ⟨rfl, j, hjm, hjq, rfl⟩

/-- Witness for C1 at a concrete two-job queue and three claimants. -/
theorem claim_run_atomic_correct_witness :
    ((sampleJobs.map JobRow.id).Nodup) ∧
    ((∀ j, oldestQueued sampleJobs = some j →
      j ∈ sampleJobs ∧ j.status = "queued" ∧
      (∀ q ∈ sampleJobs, q.status = "queued" → j.created_at ≤ q.created_at) ∧
      claimOldestJob sampleJobs 5 =
        (some (claimedOf j 5),
         sampleJobs.map (fun r => if r.id = j.id then claimedOf r 5 else r))) ∧
    (queuedCount sampleJobs = 0 → claimOldestJob sampleJobs 5 = (none, sampleJobs)) ∧
    (claimRun 5 3 sampleJobs).1.length = min 3 (queuedCount sampleJobs) ∧
    ((claimRun 5 3 sampleJobs).1.map JobRow.id).Nodup ∧
    (∀ r ∈ (claimRun 5 3 sampleJobs).1,
      r.status = "claimed" ∧
      ∃ j ∈ sampleJobs, j.status = "queued" ∧ r = claimedOf j 5) ∧
    (∀ r ∈ (claimRun 5 3 sampleJobs).1, ∀ x ∈ (claimRun 5 3 sampleJobs).2,
      x.id = r.id → x.status = "claimed")) :=
  ⟨by decide, claim_run_atomic_correct sampleJobs 5 3 (by decide)⟩

/-- C2 counterexample: the status route accepts `processing` for a job
whose status is `failed` (reviving a terminal job), and `setJobResultKey`
on a failed job silently completes it and creates a post instead of
rejecting the transition. -/
theorem status_transition_unchecked_counterexample :
    (workerPutStatus [failedJob] "f" "processing" none none 9).1 =
      StatusUpdateResponse.ok ∧
    (workerPutStatus [failedJob] "f" "processing" none none 9).2.map
      JobRow.status = ["processing"] ∧
    (setJobResultKey (DB.mk [failedJob] [] [] []) "f" "k" 9).toOption.map
      (fun r => (r.1, r.2.jobs.map JobRow.status, r.2.posts.length)) =
      some (true, ["completed"], 1) := by
  decide

/-- C2 amended: the status route rejects a new-status value outside
`processing`/`completed`/`failed` and returns not-found for an unknown
id, but performs no check of the job's current status: any existing job
— completed or failed ones included — is set to the requested status,
and `setJobResultKey` on an existing job (whatever its status) forces it
to `completed` and creates its post whenever no post with that id exists
yet. -/
theorem status_update_no_transition_check (jobs : List JobRow)
    (i status : String) (stages error : Option String) (now : Nat) :
    (status ∉ validStatuses →
      workerPutStatus jobs i status stages error now =
        (StatusUpdateResponse.invalidStatus, jobs)) ∧
    (status ∈ validStatuses → (∀ j ∈ jobs, j.id ≠ i) →
      workerPutStatus jobs i status stages error now =
        (StatusUpdateResponse.jobNotFound, jobs)) ∧
    (status ∈ validStatuses → (∃ j ∈ jobs, j.id = i) →
      (workerPutStatus jobs i status stages error now).1 =
        StatusUpdateResponse.ok ∧
      ∀ x ∈ (workerPutStatus jobs i status stages error now).2,
        x.id = i → x.status = status) ∧
    (∀ db : DB, ∀ k : String, (∃ j ∈ db.jobs, j.id = i) →
      (∀ q ∈ db.posts, q.id ≠ i) →
      ∃ db1, setJobResultKey db i k now = Except.ok (true, db1) ∧
        (∀ x ∈ db1.jobs, x.id = i → x.status = "completed") ∧
        db1.posts.length = db.posts.length + 1) := by
  refine ⟨?_, ?_, ?_, ?_⟩
  · intro h
    simp [workerPutStatus, h]
  · intro h hnone
    have ha : jobs.any (fun j => j.id == i) = false := by
      simp only [List.any_eq_false]
      intro j hj
      simpa using hnone j hj
    simp [workerPutStatus, updateJobStatus, h, ha]
  · intro h hex
    obtain ⟨j, hj, hjid⟩ := hex
    have ha : jobs.any (fun x => x.id == i) = true := by
      simp only [List.any_eq_true]
      exact ⟨j, hj, by simpa using hjid⟩
    have hres : workerPutStatus jobs i status stages error now =
        (StatusUpdateResponse.ok,
         (updateJobStatus jobs i status stages error now).2) := by
      simp [workerPutStatus, updateJobStatus, h, ha]
    rw [hres]
    refine ⟨rfl, ?_⟩
    intro x hx hxid
    simp only [updateJobStatus, List.mem_map] at hx
    obtain ⟨y, hy, rfl⟩ := hx
    by_cases hyi : y.id = i
    · simp [hyi]
    · simp only [if_neg hyi] at hxid ⊢
      exact absurd hxid hyi
  · intro db k hex hq
    obtain ⟨j, hj, hjid⟩ := hex
    have ha : db.jobs.any (fun x => x.id == i) = true := by
      simp only [List.any_eq_true]
      exact ⟨j, hj, by simpa using hjid⟩
    have hupd : ∀ x ∈ db.jobs.map (fun x =>
        if x.id = i then
          { x with result_key := some k, status := "completed",
                   updated_at := now }
        else x), x.id = i → x.status = "completed" := by
      intro x hx hxid
      simp only [List.mem_map] at hx
      obtain ⟨y, hy, rfl⟩ := hx
      by_cases hyi : y.id = i
      · simp [hyi]
      · simp only [if_neg hyi] at hxid ⊢
        exact absurd hxid hyi
    cases hf : (db.jobs.map (fun x =>
        if x.id = i then
          { x with result_key := some k, status := "completed",
                   updated_at := now }
        else x)).find? (fun x => x.id == i) with
    | none =>
      exfalso
      rw [List.find?_eq_none] at hf
      have hmem : (if j.id = i then
          { j with result_key := some k, status := "completed",
                   updated_at := now }
        else j) ∈ db.jobs.map (fun x =>
          if x.id = i then
            { x with result_key := some k, status := "completed",
                     updated_at := now }
          else x) := List.mem_map_of_mem _ hj
      have hnot := hf _ hmem
      rw [if_pos hjid] at hnot
      simp [hjid] at hnot
    | some job =>
      have hjobid : job.id = i := by
        have hp := List.find?_some hf
        simpa using hp
      have hpa : db.posts.any (fun q => q.id == job.id) = false := by
        simp only [List.any_eq_false]
        intro q hqm
        simp [hjobid, hq q hqm]
      have heq : setJobResultKey db i k now =
          Except.ok (true,
            { db with
              jobs := db.jobs.map (fun x =>
                if x.id = i then
                  { x with result_key := some k, status := "completed",
                           updated_at := now }
                else x),
              posts := db.posts ++
                [{ id := job.id, user_id := job.user_id, result_key := k,
                   output_format := job.output_format, title := none,
                   description := none, view_count := 0, like_count := 0,
                   comment_count := 0, created_at := now,
                   updated_at := now }] }) := by
        simp only [setJobResultKey, ha, if_true, hf, insertPost, hpa,
          Bool.false_eq_true, if_false]
      refine ⟨_, heq, ?_, ?_⟩
      · exact hupd
      · simp

/-- Witness for the amended C2 at concrete inputs: bad status value,
unknown id, revival of a failed job, and finalize on a failed job. -/
theorem status_update_no_transition_check_witness :
    ("queued" ∉ validStatuses ∧
      workerPutStatus [failedJob] "f" "queued" none none 9 =
        (StatusUpdateResponse.invalidStatus, [failedJob])) ∧
    (workerPutStatus ([] : List JobRow) "f" "processing" none none 9 =
      (StatusUpdateResponse.jobNotFound, [])) ∧
    ((workerPutStatus [failedJob] "f" "processing" none none 9).1 =
        StatusUpdateResponse.ok ∧
      ∀ x ∈ (workerPutStatus [failedJob] "f" "processing" none none 9).2,
        x.id = "f" → x.status = "processing") ∧
    (∃ db1, setJobResultKey (DB.mk [failedJob] [] [] []) "f" "k" 9 =
        Except.ok (true, db1) ∧
      (∀ x ∈ db1.jobs, x.id = "f" → x.status = "completed") ∧
      db1.posts.length = (DB.mk [failedJob] [] [] []).posts.length + 1) :=
  ⟨⟨by decide,
    (status_update_no_transition_check [failedJob] "f" "queued" none none 9).1
      (by decide)⟩,
   (status_update_no_transition_check [] "f" "processing" none none 9).2.1
     (by decide) (fun q hq => absurd hq (List.not_mem_nil q)),
   (status_update_no_transition_check [failedJob] "f" "processing" none none
     9).2.2.1 (by decide) ⟨failedJob, by decide, by decide⟩,
   (status_update_no_transition_check [failedJob] "f" "processing" none none
     9).2.2.2 (DB.mk [failedJob] [] [] []) "k"
     ⟨failedJob, by decide, by decide⟩
     (fun q hq => absurd hq (List.not_mem_nil q))⟩

/-- C3 counterexample: finalize is not idempotent.  At a concrete queued
job, the first `setJobResultKey` succeeds and creates the post; the
second call with the same result key raises the posts primary-key
violation instead of succeeding as a no-op (the post count stays 1). -/
theorem finalize_not_idempotent_counterexample :
    setJobResultKey (DB.mk [sampleJob] [] [] []) "a" "k" 7 =
      Except.ok (true, DB.mk
        [{ sampleJob with
           result_key := some "k", status := "completed", updated_at := 7 }]
        [{ id := "a", user_id := some "u1", result_key := "k",
           output_format := "splat", title := none, description := none,
           view_count := 0, like_count := 0, comment_count := 0,
           created_at := 7, updated_at := 7 }] [] []) ∧
    setJobResultKey (DB.mk
        [{ sampleJob with
           result_key := some "k", status := "completed", updated_at := 7 }]
        [{ id := "a", user_id := some "u1", result_key := "k",
           output_format := "splat", title := none, description := none,
           view_count := 0, like_count := 0, comment_count := 0,
           created_at := 7, updated_at := 7 }] [] []) "a" "k" 8 =
      Except.error ("UNIQUE constraint failed: posts.id", DB.mk
        [{ sampleJob with
           result_key := some "k", status := "completed", updated_at := 8 }]
        [{ id := "a", user_id := some "u1", result_key := "k",
           output_format := "splat", title := none, description := none,
           view_count := 0, like_count := 0, comment_count := 0,
           created_at := 7, updated_at := 7 }] [] []) :=
  ⟨rfl, rfl⟩

/-- C3 amended: `setJobResultKey` sets `result_key`, forces
`status = completed` and materializes exactly one Post row carrying the
job's owner, result key and output format; but a second finalize for the
same job id fails with the posts primary-key uniqueness error instead of
being an idempotent no-op — which is also what keeps the Post row
unique: the posts table still holds exactly the posts of the first
call. -/
theorem setJobResultKey_single_post (db : DB) (i k k2 : String)
    (now now2 : Nat) (hex : ∃ j ∈ db.jobs, j.id = i)
    (hq : ∀ q ∈ db.posts, q.id ≠ i) :
    ∃ db1 j0, j0 ∈ db.jobs ∧ j0.id = i ∧
      setJobResultKey db i k now = Except.ok (true, db1) ∧
      db1.posts.countP (fun q => q.id == i) = 1 ∧
      ({ id := i, user_id := j0.user_id, result_key := k,
         output_format := j0.output_format, title := none,
         description := none, view_count := 0, like_count := 0,
         comment_count := 0, created_at := now,
         updated_at := now } : PostRow) ∈ db1.posts ∧
      (∀ x ∈ db1.jobs, x.id = i →
        x.status = "completed" ∧ x.result_key = some k) ∧
      ∃ e db2, setJobResultKey db1 i k2 now2 = Except.error (e, db2) ∧
        db2.posts = db1.posts := by
  obtain ⟨j, hj, hjid⟩ := hex
  have ha : db.jobs.any (fun x => x.id == i) = true := by
    simp only [List.any_eq_true]
    exact ⟨j, hj, by simpa using hjid⟩
  cases hf : (db.jobs.map (fun x =>
      if x.id = i then
        { x with result_key := some k, status := "completed",
                 updated_at := now }
      else x)).find? (fun x => x.id == i) with
  | none =>
    exfalso
    rw [List.find?_eq_none] at hf
    have hmem : (if j.id = i then
        { j with result_key := some k, status := "completed",
                 updated_at := now }
      else j) ∈ db.jobs.map (fun x =>
        if x.id = i then
          { x with result_key := some k, status := "completed",
                   updated_at := now }
        else x) := List.mem_map_of_mem _ hj
    have hnot := hf _ hmem
    rw [if_pos hjid] at hnot
    simp [hjid] at hnot
  | some job =>
    have hjobid : job.id = i := by
      have hp := List.find?_some hf
      simpa using hp
    obtain ⟨y, hy, hyeq⟩ := List.mem_map.mp (List.mem_of_find?_eq_some hf)
    have hyid : y.id = i := by
      by_cases hc : y.id = i
      · exact hc
      · rw [if_neg hc] at hyeq
        exact absurd (hyeq ▸ hjobid) hc
    have hjob : job = { y with
        result_key := some k, status := "completed", updated_at := now } := by
      rw [if_pos hyid] at hyeq
      exact hyeq.symm
    have hpa : db.posts.any (fun q => q.id == job.id) = false := by
      simp only [List.any_eq_false]
      intro q hqm
      simp [hjobid, hq q hqm]
    have heq : setJobResultKey db i k now =
        Except.ok (true,
          { db with
            jobs := db.jobs.map (fun x =>
              if x.id = i then
                { x with result_key := some k, status := "completed",
                         updated_at := now }
              else x),
            posts := db.posts ++
              [{ id := job.id, user_id := job.user_id, result_key := k,
                 output_format := job.output_format, title := none,
                 description := none, view_count := 0, like_count := 0,
                 comment_count := 0, created_at := now,
                 updated_at := now }] }) := by
      simp only [setJobResultKey, ha, if_true, hf, insertPost, hpa,
        Bool.false_eq_true, if_false]
    have hpost :
        ({ id := i, user_id := y.user_id, result_key := k,
           output_format := y.output_format, title := none,
           description := none, view_count := 0, like_count := 0,
           comment_count := 0, created_at := now,
           updated_at := now } : PostRow) =
        { id := job.id, user_id := job.user_id, result_key := k,
          output_format := job.output_format, title := none,
          description := none, view_count := 0, like_count := 0,
          comment_count := 0, created_at := now, updated_at := now } := by
      rw [hjob]
      simp [hyid]
    refine ⟨_, y, hy, hyid, heq, ?_, ?_, ?_, ?_⟩
    · simp only [List.countP_append]
      have hz : db.posts.countP (fun q => q.id == i) = 0 := by
        rw [List.countP_eq_zero]
        intro q hqm
        simpa using hq q hqm
      simp [hz, hjobid]
    · rw [hpost]
      simp
    · intro x hx hxid
      simp only [List.mem_map] at hx
      obtain ⟨z, hz, rfl⟩ := hx
      by_cases hzi : z.id = i
      · simp [hzi]
      · simp only [if_neg hzi] at hxid ⊢
        exact absurd hxid hzi
    · -- second call: the jobs update matches again, the re-read finds a
      -- completed row, and the posts insert hits the primary key
      have ha2 : (db.jobs.map (fun x =>
          if x.id = i then
            { x with result_key := some k, status := "completed",
                     updated_at := now }
          else x)).any (fun x => x.id == i) = true := by
        simp only [List.any_eq_true]
        exact ⟨job, List.mem_of_find?_eq_some hf, by simpa using hjobid⟩
      cases hf2 : ((db.jobs.map (fun x =>
          if x.id = i then
            { x with result_key := some k, status := "completed",
                     updated_at := now }
          else x)).map (fun x =>
          if x.id = i then
            { x with result_key := some k2, status := "completed",
                     updated_at := now2 }
          else x)).find? (fun x => x.id == i) with
      | none =>
        exfalso
        rw [List.find?_eq_none] at hf2
        have hmem2 : (if job.id = i then
            { job with result_key := some k2, status := "completed",
                       updated_at := now2 }
          else job) ∈ (db.jobs.map (fun x =>
            if x.id = i then
              { x with result_key := some k, status := "completed",
                       updated_at := now }
            else x)).map (fun x =>
            if x.id = i then
              { x with result_key := some k2, status := "completed",
                       updated_at := now2 }
            else x) := List.mem_map_of_mem _ (List.mem_of_find?_eq_some hf)
        have hnot := hf2 _ hmem2
        rw [if_pos hjobid] at hnot
        simp [hjobid] at hnot
      | some job2 =>
        have hjob2id : job2.id = i := by
          have hp := List.find?_some hf2
          simpa using hp
        have hpa2 : (db.posts ++
            [({ id := job.id, user_id := job.user_id, result_key := k,
                output_format := job.output_format, title := none,
                description := none, view_count := 0, like_count := 0,
                comment_count := 0, created_at := now,
                updated_at := now } : PostRow)]).any
              (fun q => q.id == job2.id) = true := by
          simp [hjob2id, hjobid]
        have heq2 : setJobResultKey
            ({ db with
              jobs := db.jobs.map (fun x =>
                if x.id = i then
                  { x with result_key := some k, status := "completed",
                           updated_at := now }
                else x),
              posts := db.posts ++
                [{ id := job.id, user_id := job.user_id, result_key := k,
                   output_format := job.output_format, title := none,
                   description := none, view_count := 0, like_count := 0,
                   comment_count := 0, created_at := now,
                   updated_at := now }] }) i k2 now2 =
            Except.error ("UNIQUE constraint failed: posts.id",
              { db with
                jobs := (db.jobs.map (fun x =>
                  if x.id = i then
                    { x with result_key := some k, status := "completed",
                             updated_at := now }
                  else x)).map (fun x =>
                  if x.id = i then
                    { x with result_key := some k2, status := "completed",
                             updated_at := now2 }
                  else x),
                posts := db.posts ++
                  [{ id := job.id, user_id := job.user_id, result_key := k,
                     output_format := job.output_format, title := none,
                     description := none, view_count := 0, like_count := 0,
                     comment_count := 0, created_at := now,
                     updated_at := now }] }) := by
          simp only [setJobResultKey, ha2, if_true, hf2, insertPost, hpa2]
        exact ⟨_, _, heq2, rfl⟩

/-- Witness for the amended C3 at a concrete queued job and two
finalize calls with the same result key. -/
theorem setJobResultKey_single_post_witness :
    ∃ db1 j0, j0 ∈ (DB.mk [sampleJob] [] [] []).jobs ∧ j0.id = "a" ∧
      setJobResultKey (DB.mk [sampleJob] [] [] []) "a" "k" 7 =
        Except.ok (true, db1) ∧
      db1.posts.countP (fun q => q.id == "a") = 1 ∧
      ({ id := "a", user_id := j0.user_id, result_key := "k",
         output_format := j0.output_format, title := none,
         description := none, view_count := 0, like_count := 0,
         comment_count := 0, created_at := 7,
         updated_at := 7 } : PostRow) ∈ db1.posts ∧
      (∀ x ∈ db1.jobs, x.id = "a" →
        x.status = "completed" ∧ x.result_key = some "k") ∧
      ∃ e db2, setJobResultKey db1 "a" "k" 8 = Except.error (e, db2) ∧
        db2.posts = db1.posts :=
  setJobResultKey_single_post (DB.mk [sampleJob] [] [] []) "a" "k" "k" 7 8
    ⟨sampleJob, by decide, by decide⟩
    (fun q hq => absurd hq (List.not_mem_nil q))

/-- C10: the view endpoint replies `ok` on every request, an unknown post
id included: the response is fixed before the deferred increment runs,
`incrementViewCount` on an unknown id matches no row, changes nothing and
returns `false`, and that result is never surfaced to the caller. -/
theorem view_route_always_ok (db : DB) (i : String) :
    (postViewRoute db i).1 = { ok := true } ∧
    ((∀ p ∈ db.posts, p.id ≠ i) →
      incrementViewCount db i = (false, db) ∧
      postViewRoute db i = ({ ok := true }, db)) := by
  refine ⟨rfl, ?_⟩
  intro h
  have ha : db.posts.any (fun p => p.id == i) = false := by
    simp only [List.any_eq_false]
    intro p hp
    simpa using h p hp
  have h1 : ∀ p ∈ db.posts,
      (if p.id = i then { p with view_count := p.view_count + 1 } else p) = p :=
    fun p hp => if_neg (h p hp)
  have hmap : db.posts.map (fun p =>
      if p.id = i then { p with view_count := p.view_count + 1 } else p) =
      db.posts := by
    rw [List.map_congr_left h1]
    exact List.map_id _
  constructor
  · unfold incrementViewCount
    rw [ha, hmap]
  · unfold postViewRoute incrementViewCount
    rw [hmap]

/-- Witness for C10 at a concrete store and an id matching no post. -/
theorem view_route_always_ok_witness :
    (postViewRoute (DB.mk [] [samplePost] [] []) "zz").1 = { ok := true } ∧
    (incrementViewCount (DB.mk [] [samplePost] [] []) "zz" =
      (false, DB.mk [] [samplePost] [] []) ∧
     postViewRoute (DB.mk [] [samplePost] [] []) "zz" =
      ({ ok := true }, DB.mk [] [samplePost] [] [])) :=
  ⟨(view_route_always_ok (DB.mk [] [samplePost] [] []) "zz").1,
   (view_route_always_ok (DB.mk [] [samplePost] [] []) "zz").2 (by decide)⟩

lemma countP_split {α : Type} (p q : α → Bool) (l : List α) :
    l.countP p =
      l.countP (fun a => p a && q a) + l.countP (fun a => p a && !q a) := by
  induction l with
  | nil => rfl
  | cons a l ih =>
    by_cases hp : p a <;> by_cases hq : q a <;>
      simp [List.countP_cons, hp, hq, ih] <;> omega

lemma countP_le_one_of_pairwise {α : Type} {l : List α} {R : α → α → Prop}
    {M : α → Bool} (hp : l.Pairwise R)
    (h : ∀ a ∈ l, ∀ b ∈ l, M a = true → M b = true → R a b → False) :
    l.countP M ≤ 1 := by
  induction l with
  | nil => simp
  | cons a l ih =>
    have hp' := List.pairwise_cons.mp hp
    by_cases hM : M a = true
    · rw [List.countP_cons_of_pos _ _ hM]
      have h0 : l.countP M = 0 := by
        rw [List.countP_eq_zero]
        intro b hb hMb
        exact h a (List.mem_cons_self a l) b (List.mem_cons_of_mem a hb) hM
          hMb (hp'.1 b hb)
      omega
    · rw [List.countP_cons_of_neg _ _ hM]
      exact ih hp'.2 (fun x hx y hy => h x (List.mem_cons_of_mem a hx) y
        (List.mem_cons_of_mem a hy))

lemma insertLike_dup {db : DB} {u pid : String} {now : Nat}
    (h : db.likes.any (fun x => x.user_id == u && x.job_id == pid) = true) :
    insertLike db u pid now = (false, db) := by
  simp [insertLike, h]

lemma insertLike_fresh {db : DB} {u pid : String} {now : Nat}
    (h : db.likes.any (fun x => x.user_id == u && x.job_id == pid) = false) :
    insertLike db u pid now =
      (true, { db with
        likes := db.likes ++
          [{ user_id := u, job_id := pid, post_id := some pid,
             created_at := now }],
        posts := db.posts.map (fun p =>
          if p.id = pid then { p with like_count := p.like_count + 1 }
          else p) }) := by
  simp [insertLike, h]

lemma removeLike_eq_none {db : DB} {u pid : String}
    (h : db.likes.countP
      (fun l => l.user_id == u && l.post_id == some pid) = 0) :
    removeLike db u pid = (false, db) := by
  simp [removeLike, h]

lemma removeLike_eq_pos {db : DB} {u pid : String}
    (h : 0 < db.likes.countP
      (fun l => l.user_id == u && l.post_id == some pid)) :
    removeLike db u pid =
      (true, { db with
        likes := db.likes.filter
          (fun l => !(l.user_id == u && l.post_id == some pid)),
        posts := db.posts.map (fun p =>
          if p.id = pid then { p with like_count := max 0 (p.like_count - 1) }
          else p) }) := by
  simp [removeLike, h]

lemma likes_any_pk_iff (db : DB) (u pid : String) :
    db.likes.any (fun x => x.user_id == u && x.job_id == pid) = true ↔
    ∃ l ∈ db.likes, l.user_id = u ∧ l.job_id = pid := by
  simp [List.any_eq_true]

lemma likes_countP_pos_iff (db : DB) (u pid : String) :
    0 < db.likes.countP
      (fun l => l.user_id == u && l.post_id == some pid) ↔
    ∃ l ∈ db.likes, l.user_id = u ∧ l.post_id = some pid := by
  rw [List.countP_pos_iff]
  simp

lemma insertLike_preserves (db : DB) (u pid : String) (now : Nat)
    (h : LikesConsistent db) : LikesConsistent (insertLike db u pid now).2 := by
  by_cases hd : db.likes.any
      (fun x => x.user_id == u && x.job_id == pid) = true
  · rw [insertLike_dup hd]
    exact h
  · have hd' : db.likes.any
        (fun x => x.user_id == u && x.job_id == pid) = false := by
      simpa using hd
    have hnmem : ∀ x ∈ db.likes, ¬(x.user_id = u ∧ x.job_id = pid) := by
      intro x hx hc
      exact hd ((likes_any_pk_iff db u pid).mpr ⟨x, hx, hc⟩)
    obtain ⟨h1, h2, h3⟩ := h
    rw [insertLike_fresh hd']
    refine ⟨?_, ?_, ?_⟩
    · intro l hl
      rcases List.mem_append.mp hl with hl | hl
      · exact h1 l hl
      · have := List.mem_singleton.mp hl
        subst this
        rfl
    · rw [List.pairwise_append]
      refine ⟨h2, List.pairwise_singleton _ _, ?_⟩
      intro a ha b hb
      have := List.mem_singleton.mp hb
      subst this
      intro hc
      exact hnmem a ha hc
    · intro p hp
      rcases List.mem_map.mp hp with ⟨q, hq, rfl⟩
      have hcount : ∀ x : String,
          likesFor { db with
            likes := db.likes ++
              [{ user_id := u, job_id := pid, post_id := some pid,
                 created_at := now }],
            posts := db.posts.map (fun p =>
              if p.id = pid then { p with like_count := p.like_count + 1 }
              else p) } x =
          likesFor db x + (if pid = x then 1 else 0) := by
        intro x
        simp only [likesFor, List.countP_append, List.countP_singleton]
        by_cases hx : pid = x
        · simp [hx]
        · simp [hx]
      by_cases hqi : q.id = pid
      · rw [if_pos hqi]
        have hg := hcount q.id
        rw [if_pos hqi.symm] at hg
        have hq3 := h3 q hq
        simp only [hg, hq3]
        push_cast
        ring
      · rw [if_neg hqi]
        have hg := hcount q.id
        rw [if_neg (fun hc => hqi hc.symm)] at hg
        have hq3 := h3 q hq
        simp only [hg, hq3]
        push_cast
        ring

lemma removeLike_preserves (db : DB) (u pid : String)
    (h : LikesConsistent db) : LikesConsistent (removeLike db u pid).2 := by
  obtain ⟨h1, h2, h3⟩ := h
  by_cases hz : db.likes.countP
      (fun l => l.user_id == u && l.post_id == some pid) = 0
  · rw [removeLike_eq_none hz]
    exact ⟨h1, h2, h3⟩
  · have hpos : 0 < db.likes.countP
        (fun l => l.user_id == u && l.post_id == some pid) :=
      Nat.pos_of_ne_zero hz
    have hle : db.likes.countP
        (fun l => l.user_id == u && l.post_id == some pid) ≤ 1 := by
      refine countP_le_one_of_pairwise h2 ?_
      intro a ha b hb hMa hMb hR
      simp only [Bool.and_eq_true, beq_iff_eq] at hMa hMb
      have hja : a.job_id = pid := by
        have := h1 a ha
        rw [hMa.2] at this
        exact (Option.some_inj.mp this).symm
      have hjb : b.job_id = pid := by
        have := h1 b hb
        rw [hMb.2] at this
        exact (Option.some_inj.mp this).symm
      exact hR ⟨hMa.1.trans hMb.1.symm, hja.trans hjb.symm⟩
    have hone : db.likes.countP
        (fun l => l.user_id == u && l.post_id == some pid) = 1 :=
      le_antisymm hle hpos
    rw [removeLike_eq_pos hpos]
    refine ⟨?_, ?_, ?_⟩
    · intro l hl
      exact h1 l (List.mem_filter.mp hl).1
    · exact List.Pairwise.sublist (List.filter_sublist _) h2
    · intro p hp
      rcases List.mem_map.mp hp with ⟨q, hq, rfl⟩
      by_cases hqi : q.id = pid
      · rw [if_pos hqi]
        have hsplit := countP_split (fun l : LikeRow => l.post_id == some pid)
          (fun l => l.user_id == u && l.post_id == some pid) db.likes
        have hsub : db.likes.countP (fun l =>
            (l.post_id == some pid) &&
            (l.user_id == u && l.post_id == some pid)) =
            db.likes.countP
              (fun l => l.user_id == u && l.post_id == some pid) := by
          refine List.countP_congr ?_
          intro x _
          by_cases hxu : x.user_id = u <;> by_cases hxp : x.post_id = some pid <;>
            simp [hxu, hxp]
        have hnew : likesFor { db with
            likes := db.likes.filter
              (fun l => !(l.user_id == u && l.post_id == some pid)),
            posts := db.posts.map (fun p =>
              if p.id = pid then
                { p with like_count := max 0 (p.like_count - 1) }
              else p) } q.id =
            likesFor db pid - 1 := by
          simp only [likesFor, List.countP_filter, hqi]
          omega
        have hq3 := h3 q hq
        rw [hqi] at hq3
        have hflo : 1 ≤ likesFor db pid := by
          have hmono : db.likes.countP
              (fun l => l.user_id == u && l.post_id == some pid) ≤
              db.likes.countP (fun l => l.post_id == some pid) := by
            refine List.countP_mono_left ?_
            intro x _ hx
            simp only [Bool.and_eq_true] at hx
            exact hx.2
          simpa [likesFor, hone] using hmono
        rw [hnew, hq3]
        simp only [likesFor] at hflo ⊢
        omega
      · rw [if_neg hqi]
        have hnew : likesFor { db with
            likes := db.likes.filter
              (fun l => !(l.user_id == u && l.post_id == some pid)),
            posts := db.posts.map (fun p =>
              if p.id = pid then
                { p with like_count := max 0 (p.like_count - 1) }
              else p) } q.id =
            likesFor db q.id := by
          simp only [likesFor, List.countP_filter]
          refine List.countP_congr ?_
          intro x _
          by_cases hxq : x.post_id = some q.id
          · have hxp : x.post_id ≠ some pid := by
              rw [hxq]
              intro hc
              exact hqi (Option.some_inj.mp hc)
            simp only [hxq, hxp, beq_iff_eq, Option.some_inj]
            simp
            exact Or.inr hqi
          · simp [hxq]
        rw [hnew]
        exact h3 q hq

lemma applyLikeOps_preserves (ops : List LikeOp) :
    ∀ (db : DB), LikesConsistent db →
      LikesConsistent (applyLikeOps db ops) := by
  induction ops with
  | nil => intro db h; exact h
  | cons op ops ih =>
    intro db h
    have hstep : LikesConsistent (applyLikeOp db op) := by
      cases op with
      | like u p n => exact insertLike_preserves db u p n h
      | unlike u p => exact removeLike_preserves db u p h
    simpa [applyLikeOps] using ih _ hstep

/-- C4: starting from a consistent state, after any finite sequence of
like/unlike calls every post's `like_count` equals its number of
surviving Like rows; a user never holds more than one Like row per post;
a duplicate like is a no-op reported as `false` (not an error); and
unlike decrements by 1, floored at 0, exactly when a Like row was
deleted, returning whether one was removed. -/
theorem like_counter_consistent (db : DB) (h : LikesConsistent db) :
    (∀ ops, ∀ p ∈ (applyLikeOps db ops).posts,
      p.like_count = (likesFor (applyLikeOps db ops) p.id : Int)) ∧
    (∀ ops u pid,
      (applyLikeOps db ops).likes.countP
        (fun l => l.user_id == u && l.post_id == some pid) ≤ 1) ∧
    (∀ u pid now, (∃ l ∈ db.likes, l.user_id = u ∧ l.job_id = pid) →
      insertLike db u pid now = (false, db)) ∧
    (∀ u pid, ((removeLike db u pid).1 = true ↔
      ∃ l ∈ db.likes, l.user_id = u ∧ l.post_id = some pid)) ∧
    (∀ u pid, (∀ l ∈ db.likes, ¬(l.user_id = u ∧ l.post_id = some pid)) →
      removeLike db u pid = (false, db)) ∧
    (∀ u pid, (removeLike db u pid).1 = true →
      (removeLike db u pid).2.posts = db.posts.map (fun p =>
        if p.id = pid then { p with like_count := max 0 (p.like_count - 1) }
        else p)) := by
  refine ⟨?_, ?_, ?_, ?_, ?_, ?_⟩
  · intro ops
    exact (applyLikeOps_preserves ops db h).2.2
  · intro ops u pid
    obtain ⟨h1, h2, -⟩ := applyLikeOps_preserves ops db h
    refine countP_le_one_of_pairwise h2 ?_
    intro a ha b hb hMa hMb hR
    simp only [Bool.and_eq_true, beq_iff_eq] at hMa hMb
    have hja : a.job_id = pid := by
      have hpa := h1 a ha
      rw [hMa.2] at hpa
      exact (Option.some_inj.mp hpa).symm
    have hjb : b.job_id = pid := by
      have hpb := h1 b hb
      rw [hMb.2] at hpb
      exact (Option.some_inj.mp hpb).symm
    exact hR ⟨hMa.1.trans hMb.1.symm, hja.trans hjb.symm⟩
  · intro u pid now hex
    exact insertLike_dup ((likes_any_pk_iff db u pid).mpr hex)
  · intro u pid
    by_cases hz : db.likes.countP
        (fun l => l.user_id == u && l.post_id == some pid) = 0
    · rw [removeLike_eq_none hz]
      refine iff_of_false (by simp) ?_
      rintro ⟨l, hl, hu, hp⟩
      have := List.countP_eq_zero.mp hz l hl
      simp [hu, hp] at this
    · have hpos := Nat.pos_of_ne_zero hz
      rw [removeLike_eq_pos hpos]
      exact iff_of_true rfl ((likes_countP_pos_iff db u pid).mp hpos)
  · intro u pid hnone
    refine removeLike_eq_none ?_
    rw [List.countP_eq_zero]
    intro l hl
    simpa using hnone l hl
  · intro u pid htrue
    by_cases hz : db.likes.countP
        (fun l => l.user_id == u && l.post_id == some pid) = 0
    · rw [removeLike_eq_none hz] at htrue
      exact absurd htrue (by simp)
    · rw [removeLike_eq_pos (Nat.pos_of_ne_zero hz)]

/-- Witness for C4 at a consistent one-post store. -/
theorem like_counter_consistent_witness :
    LikesConsistent (DB.mk [] [samplePost] [] []) ∧
    ((∀ ops, ∀ p ∈ (applyLikeOps (DB.mk [] [samplePost] [] []) ops).posts,
      p.like_count =
        (likesFor (applyLikeOps (DB.mk [] [samplePost] [] []) ops) p.id : Int)) ∧
    (∀ ops u pid,
      (applyLikeOps (DB.mk [] [samplePost] [] []) ops).likes.countP
        (fun l => l.user_id == u && l.post_id == some pid) ≤ 1) ∧
    (∀ u pid now,
      (∃ l ∈ (DB.mk [] [samplePost] [] []).likes,
        l.user_id = u ∧ l.job_id = pid) →
      insertLike (DB.mk [] [samplePost] [] []) u pid now =
        (false, DB.mk [] [samplePost] [] [])) ∧
    (∀ u pid, ((removeLike (DB.mk [] [samplePost] [] []) u pid).1 = true ↔
      ∃ l ∈ (DB.mk [] [samplePost] [] []).likes,
        l.user_id = u ∧ l.post_id = some pid)) ∧
    (∀ u pid, (∀ l ∈ (DB.mk [] [samplePost] [] []).likes,
        ¬(l.user_id = u ∧ l.post_id = some pid)) →
      removeLike (DB.mk [] [samplePost] [] []) u pid =
        (false, DB.mk [] [samplePost] [] [])) ∧
    (∀ u pid, (removeLike (DB.mk [] [samplePost] [] []) u pid).1 = true →
      (removeLike (DB.mk [] [samplePost] [] []) u pid).2.posts =
        (DB.mk [] [samplePost] [] []).posts.map (fun p =>
          if p.id = pid then
            { p with like_count := max 0 (p.like_count - 1) }
          else p))) :=
  ⟨by unfold LikesConsistent; decide,
   like_counter_consistent (DB.mk [] [samplePost] [] [])
     (by unfold LikesConsistent; decide)⟩

/-- C8: every Like row created through `insertLike` has its `job_id`
column equal to its `post_id` column (both bound to the liked post's
id), so the `(user_id, job_id)` primary key of the likes table is what
enforces at-most-one Like per (user, post): the caught uniqueness
violation fires exactly when the user already has a Like row for that
post. -/
theorem insertLike_binds_job_id_to_post_id (db : DB) (u pid : String)
    (now : Nat) :
    (∀ l ∈ (insertLike db u pid now).2.likes,
      l ∈ db.likes ∨ (l.user_id = u ∧ l.job_id = pid ∧ l.post_id = some pid)) ∧
    ((∀ l ∈ db.likes, l.post_id = some l.job_id) →
      ((insertLike db u pid now).1 = false ↔
        ∃ l ∈ db.likes, l.user_id = u ∧ l.post_id = some pid)) := by
  constructor
  · intro l hl
    by_cases hd : db.likes.any
        (fun x => x.user_id == u && x.job_id == pid) = true
    · rw [insertLike_dup hd] at hl
      exact Or.inl hl
    · have hd' : db.likes.any
          (fun x => x.user_id == u && x.job_id == pid) = false := by
        simpa using hd
      rw [insertLike_fresh hd'] at hl
      rcases List.mem_append.mp hl with hm | hm
      · exact Or.inl hm
      · have := List.mem_singleton.mp hm
        subst this
        exact Or.inr ⟨rfl, rfl, rfl⟩
  · intro hinv
    by_cases hd : db.likes.any
        (fun x => x.user_id == u && x.job_id == pid) = true
    · rw [insertLike_dup hd]
      obtain ⟨l, hl, hu, hj⟩ := (likes_any_pk_iff db u pid).mp hd
      exact iff_of_true rfl ⟨l, hl, hu, by rw [hinv l hl, hj]⟩
    · have hd' : db.likes.any
          (fun x => x.user_id == u && x.job_id == pid) = false := by
        simpa using hd
      rw [insertLike_fresh hd']
      refine iff_of_false (by simp) ?_
      rintro ⟨l, hl, hu, hp⟩
      refine hd ((likes_any_pk_iff db u pid).mpr ⟨l, hl, hu, ?_⟩)
      have hpj := hinv l hl
      rw [hp] at hpj
      exact (Option.some_inj.mp hpj).symm

/-- Witness for C8 at a store already holding the (u1, p1) like. -/
theorem insertLike_binds_job_id_to_post_id_witness :
    (∀ l ∈ (insertLike
        (DB.mk [] [samplePost]
          [{ user_id := "u1", job_id := "p1", post_id := some "p1",
             created_at := 2 }] []) "u1" "p1" 5).2.likes,
      l ∈ (DB.mk [] [samplePost]
          [{ user_id := "u1", job_id := "p1", post_id := some "p1",
             created_at := 2 }] []).likes ∨
        (l.user_id = "u1" ∧ l.job_id = "p1" ∧ l.post_id = some "p1")) ∧
    ((insertLike
        (DB.mk [] [samplePost]
          [{ user_id := "u1", job_id := "p1", post_id := some "p1",
             created_at := 2 }] []) "u1" "p1" 5).1 = false ↔
      ∃ l ∈ (DB.mk [] [samplePost]
          [{ user_id := "u1", job_id := "p1", post_id := some "p1",
             created_at := 2 }] []).likes,
        l.user_id = "u1" ∧ l.post_id = some "p1") :=
  ⟨(insertLike_binds_job_id_to_post_id
      (DB.mk [] [samplePost]
        [{ user_id := "u1", job_id := "p1", post_id := some "p1",
           created_at := 2 }] []) "u1" "p1" 5).1,
   (insertLike_binds_job_id_to_post_id
      (DB.mk [] [samplePost]
        [{ user_id := "u1", job_id := "p1", post_id := some "p1",
           created_at := 2 }] []) "u1" "p1" 5).2 (by decide)⟩

lemma decayTerm_strict_anti {a1 a2 : Nat} (h : a1 < a2) :
    decayTerm a2 < decayTerm a1 := by
  unfold decayTerm
  have h1 : (0 : ℚ) < (a1 : ℚ) + 3600 := by positivity
  have h2 : (a1 : ℚ) + 3600 < (a2 : ℚ) + 3600 := by
    have : (a1 : ℚ) < (a2 : ℚ) := by exact_mod_cast h
    linarith
  exact div_lt_div_of_pos_left (by norm_num) h1 h2

/-- C7: the feed lists posts by descending
`view_count * 0.3 + like_count * 1.0 + 86400 / (age_seconds + 3600)`;
with identical popularity counts the newer post scores strictly higher
and therefore ranks earlier, and the decay term attains its maximum
`24.0` exactly at age 0. -/
theorem feed_orders_by_decaying_score (now : Nat) :
    (∀ p q : PostRow, p.view_count = q.view_count →
      p.like_count = q.like_count → q.created_at < p.created_at →
      p.created_at ≤ now → postScore now q < postScore now p) ∧
    (∀ age : Nat, decayTerm age ≤ 24) ∧
    decayTerm 0 = 24 ∧
    (∀ (db : DB) (limit offset : Nat),
      List.Sorted (feedRel now) (getFeedItems db now limit offset)) ∧
    (∀ (l : List PostRow), List.Sorted (feedRel now) l →
      ∀ (p q : PostRow) (i j : Nat)
        (hi : i < l.length) (hj : j < l.length),
        l.get ⟨i, hi⟩ = q → l.get ⟨j, hj⟩ = p →
        p.view_count = q.view_count → p.like_count = q.like_count →
        q.created_at < p.created_at → p.created_at ≤ now → j < i) := by
  have hscore : ∀ p q : PostRow, p.view_count = q.view_count →
      p.like_count = q.like_count → q.created_at < p.created_at →
      p.created_at ≤ now → postScore now q < postScore now p := by
    intro p q hv hl hlt hle
    unfold postScore
    rw [hv, hl]
    have hage : now - p.created_at < now - q.created_at := by omega
    exact add_lt_add_left (decayTerm_strict_anti hage) _
  refine ⟨hscore, ?_, ?_, ?_, ?_⟩
  · intro age
    unfold decayTerm
    rw [div_le_iff₀ (by positivity)]
    have hnn : (0 : ℚ) ≤ (age : ℚ) := Nat.cast_nonneg age
    nlinarith
  · unfold decayTerm
    norm_num
  · intro db limit offset
    have hs : List.Sorted (feedRel now) (sortByScore now db.posts) :=
      List.sorted_insertionSort (feedRel now) db.posts
    have hsub : (((sortByScore now db.posts).drop offset).take limit).Sublist
        (sortByScore now db.posts) :=
      ((List.take_sublist _ _).trans (List.drop_sublist _ _))
    exact List.Pairwise.sublist hsub hs
  · intro l hs p q i j hi hj hgi hgj hv hl hlt hle
    have hqp : postScore now q < postScore now p := hscore p q hv hl hlt hle
    rcases Nat.lt_trichotomy j i with h | h | h
    · exact h
    · exfalso
      subst h
      have hpq : p = q := by rw [← hgj, ← hgi]
      rw [hpq] at hlt
      exact lt_irrefl _ hlt
    · exfalso
      have hrel := hs.rel_get_of_lt (a := ⟨i, hi⟩) (b := ⟨j, hj⟩) h
      rw [hgi, hgj] at hrel
      exact absurd hrel (not_le.mpr hqp)

/-- Witness for C7 at two posts differing only in age. -/
theorem feed_orders_by_decaying_score_witness :
    postScore 10 samplePost <
      postScore 10 { samplePost with id := "p2", created_at := 5 } ∧
    decayTerm 7 ≤ 24 ∧
    decayTerm 0 = 24 ∧
    List.Sorted (feedRel 10)
      (getFeedItems (DB.mk []
        [samplePost, { samplePost with id := "p2", created_at := 5 }] [] [])
        10 10 0) ∧
    (0 : Nat) < 1 :=
  ⟨(feed_orders_by_decaying_score 10).1
      { samplePost with id := "p2", created_at := 5 } samplePost rfl rfl
      (by decide) (by decide),
   (feed_orders_by_decaying_score 10).2.1 7,
   (feed_orders_by_decaying_score 10).2.2.1,
   (feed_orders_by_decaying_score 10).2.2.2.1
     (DB.mk [] [samplePost, { samplePost with id := "p2", created_at := 5 }]
       [] []) 10 0,
   (feed_orders_by_decaying_score 10).2.2.2.2
     [{ samplePost with id := "p2", created_at := 5 }, samplePost]
     (List.pairwise_cons.mpr
       ⟨fun b hb => by
          have hb1 := List.mem_singleton.mp hb
          subst hb1
          exact le_of_lt ((feed_orders_by_decaying_score 10).1
            { samplePost with id := "p2", created_at := 5 } samplePost
            rfl rfl (by decide) (by decide)),
        List.pairwise_singleton _ _⟩)
     { samplePost with id := "p2", created_at := 5 } samplePost 1 0
     (by decide) (by decide) rfl rfl rfl rfl
     (by decide) (by decide)⟩

lemma countP_not_add {α : Type} (p : α → Bool) (l : List α) :
    l.countP (fun a => !p a) + l.countP p = l.length := by
  induction l with
  | nil => rfl
  | cons a l ih =>
    by_cases h : p a <;> simp [List.countP_cons, h] <;> omega

lemma deleteComment_not_found {db : DB} {cid uid : String}
    (h : db.comments.find? (fun c => c.id == cid) = none) :
    deleteComment db cid uid = ((false, 0), db) := by
  simp [deleteComment, h]

lemma deleteComment_wrong_user {db : DB} {cid uid : String}
    {comment : CommentRow}
    (h : db.comments.find? (fun c => c.id == cid) = some comment)
    (hu : ¬ comment.user_id = uid) :
    deleteComment db cid uid = ((false, 0), db) := by
  simp [deleteComment, h, hu]

lemma deleteComment_top {db : DB} {cid uid : String} {comment : CommentRow}
    (h : db.comments.find? (fun c => c.id == cid) = some comment)
    (hu : comment.user_id = uid) (hp : comment.parent_id = none) :
    deleteComment db cid uid =
      ((true, 1 + db.comments.countP (fun c => c.parent_id == some cid)),
       { db with
         comments := (db.comments.filter
           (fun c => !(c.parent_id == some cid))).filter
             (fun c => !(c.id == cid)),
         posts := db.posts.map (fun p =>
           if p.id = comment.post_id then
             { p with
               comment_count := max 0 (p.comment_count -
                 ((1 + db.comments.countP
                   (fun c => c.parent_id == some cid) : Nat) : Int)) }
           else p) }) := by
  simp [deleteComment, h, hu, hp]

lemma deleteComment_reply {db : DB} {cid uid pp : String}
    {comment : CommentRow}
    (h : db.comments.find? (fun c => c.id == cid) = some comment)
    (hu : comment.user_id = uid) (hp : comment.parent_id = some pp) :
    deleteComment db cid uid =
      ((true, 1),
       { db with
         comments := db.comments.filter (fun c => !(c.id == cid)),
         posts := db.posts.map (fun p =>
           if p.id = comment.post_id then
             { p with comment_count := max 0 (p.comment_count - (1 : Int)) }
           else p) }) := by
  simp [deleteComment, h, hu, hp]

/-- C5: comment deletion succeeds only for the comment's author; an
unknown id and another user's comment produce the identical
not-found result; an author's top-level delete removes the comment and
all its direct replies (`1 + reply_count` rows) and decrements the
post's `comment_count` by exactly that number, floored at zero; deleting
a reply removes only that row and decrements by 1. -/
theorem delete_comment_owner_only_cascade (db : DB) (cid uid : String) :
    ((∀ c ∈ db.comments, c.id ≠ cid) →
      deleteComment db cid uid = ((false, 0), db) ∧
      deleteCommentRoute db cid uid = (CommentDeleteResponse.notFound, db)) ∧
    (∀ comment, db.comments.find? (fun c => c.id == cid) = some comment →
      comment.user_id ≠ uid →
      deleteComment db cid uid = ((false, 0), db) ∧
      deleteCommentRoute db cid uid = (CommentDeleteResponse.notFound, db)) ∧
    (∀ comment, db.comments.find? (fun c => c.id == cid) = some comment →
      comment.user_id = uid → comment.parent_id = none →
      (db.comments.map CommentRow.id).Nodup →
      deleteComment db cid uid =
        ((true, 1 + db.comments.countP (fun c => c.parent_id == some cid)),
         { db with
           comments := (db.comments.filter
             (fun c => !(c.parent_id == some cid))).filter
               (fun c => !(c.id == cid)),
           posts := db.posts.map (fun p =>
             if p.id = comment.post_id then
               { p with
                 comment_count := max 0 (p.comment_count -
                   ((1 + db.comments.countP
                     (fun c => c.parent_id == some cid) : Nat) : Int)) }
             else p) }) ∧
      (deleteComment db cid uid).2.comments.length +
        (1 + db.comments.countP (fun c => c.parent_id == some cid)) =
        db.comments.length) ∧
    (∀ comment pp,
      db.comments.find? (fun c => c.id == cid) = some comment →
      comment.user_id = uid → comment.parent_id = some pp →
      deleteComment db cid uid =
        ((true, 1),
         { db with
           comments := db.comments.filter (fun c => !(c.id == cid)),
           posts := db.posts.map (fun p =>
             if p.id = comment.post_id then
               { p with
                 comment_count := max 0 (p.comment_count - (1 : Int)) }
             else p) })) := by
  refine ⟨?_, ?_, ?_, ?_⟩
  · intro hnone
    have hf : db.comments.find? (fun c => c.id == cid) = none := by
      rw [List.find?_eq_none]
      intro c hc
      simpa using hnone c hc
    refine ⟨deleteComment_not_found hf, ?_⟩
    simp [deleteCommentRoute, deleteComment_not_found hf]
  · intro comment hfind hu
    refine ⟨deleteComment_wrong_user hfind hu, ?_⟩
    simp [deleteCommentRoute, deleteComment_wrong_user hfind hu]
  · intro comment hfind hu hp hids
    have hcid : comment.id = cid := by
      have hx := List.find?_some hfind
      simpa using hx
    have hmem : comment ∈ db.comments := List.mem_of_find?_eq_some hfind
    refine ⟨deleteComment_top hfind hu hp, ?_⟩
    rw [deleteComment_top hfind hu hp]
    have hpw : db.comments.Pairwise (fun a b => a.id ≠ b.id) :=
      List.pairwise_map.mp hids
    have hle1 : db.comments.countP (fun c => c.id == cid) ≤ 1 := by
      refine countP_le_one_of_pairwise hpw ?_
      intro a _ b _ hMa hMb hR
      simp only [beq_iff_eq] at hMa hMb
      exact hR (hMa.trans hMb.symm)
    have hmemf : comment ∈ db.comments.filter
        (fun c => !(c.parent_id == some cid)) := by
      refine List.mem_filter.mpr ⟨hmem, ?_⟩
      simp [hp]
    have hpos1 : 0 < (db.comments.filter
        (fun c => !(c.parent_id == some cid))).countP
          (fun c => c.id == cid) := by
      rw [List.countP_pos_iff]
      exact ⟨comment, hmemf, by simp [hcid]⟩
    have hle1' : (db.comments.filter
        (fun c => !(c.parent_id == some cid))).countP
          (fun c => c.id == cid) ≤ 1 :=
      le_trans (List.Sublist.countP_le _ (List.filter_sublist _)) hle1
    have hone : (db.comments.filter
        (fun c => !(c.parent_id == some cid))).countP
          (fun c => c.id == cid) = 1 := le_antisymm hle1' hpos1
    have hlen1 : (db.comments.filter
          (fun c => !(c.parent_id == some cid))).length +
        db.comments.countP (fun c => c.parent_id == some cid) =
        db.comments.length := by
      rw [List.countP_eq_length_filter] at *
      have := countP_not_add (fun c : CommentRow =>
        c.parent_id == some cid) db.comments
      rw [List.countP_eq_length_filter, List.countP_eq_length_filter] at this
      exact this
    have hlen2 : ((db.comments.filter
          (fun c => !(c.parent_id == some cid))).filter
            (fun c => !(c.id == cid))).length + 1 =
        (db.comments.filter (fun c => !(c.parent_id == some cid))).length := by
      have := countP_not_add (fun c : CommentRow => c.id == cid)
        (db.comments.filter (fun c => !(c.parent_id == some cid)))
      rw [List.countP_eq_length_filter, hone] at this
      omega
    simp only []
    omega
  · intro comment pp hfind hu hp
    exact deleteComment_reply hfind hu hp

/-- Witness for C5 at a post with one top-level comment and two replies:
unknown id and foreign comment give the same not-found; the author's
top-level delete removes 3 rows and decrements by 3; the author's reply
delete removes 1 row and decrements by 1. -/
theorem delete_comment_owner_only_cascade_witness :
    (deleteComment commentsDB "zz" "u1" = ((false, 0), commentsDB) ∧
     deleteCommentRoute commentsDB "zz" "u1" =
       (CommentDeleteResponse.notFound, commentsDB)) ∧
    (deleteComment commentsDB "c1" "u9" = ((false, 0), commentsDB) ∧
     deleteCommentRoute commentsDB "c1" "u9" =
       (CommentDeleteResponse.notFound, commentsDB)) ∧
    (deleteComment commentsDB "c1" "u1" =
      ((true, 3),
       DB.mk [] [{ samplePost with comment_count := 1 }] [] []) ∧
     (deleteComment commentsDB "c1" "u1").2.comments.length + 3 = 3) ∧
    deleteComment commentsDB "c2" "u2" =
      ((true, 1),
       DB.mk [] [{ samplePost with comment_count := 3 }] []
         [topComment, replyComment2]) :=
  ⟨(delete_comment_owner_only_cascade commentsDB "zz" "u1").1 (by decide),
   (delete_comment_owner_only_cascade commentsDB "c1" "u9").2.1 topComment
     (by decide) (by decide),
   ⟨((delete_comment_owner_only_cascade commentsDB "c1" "u1").2.2.1
       topComment (by decide) rfl rfl (by decide)).1,
    ((delete_comment_owner_only_cascade commentsDB "c1" "u1").2.2.1
       topComment (by decide) rfl rfl (by decide)).2⟩,
   (delete_comment_owner_only_cascade commentsDB "c2" "u2").2.2.2
     replyComment "c1" (by decide) rfl rfl⟩

/-- C6: when the declared parent of a new comment is itself a reply, the
stored comment's `parent_id` is that parent's own `parent_id` (the
top-level comment's id); consequently — for fresh ids, as generated by
the route's random UUID — insertion preserves the invariant that no
stored comment's parent is itself a reply. -/
theorem comment_reply_flattening (db : DB) (i postId userId : String)
    (p : Option String) (body : String) (now : Nat) :
    (∀ pp parent q, p = some pp →
      db.comments.find? (fun c => c.id == pp) = some parent →
      parent.parent_id = some q →
      (insertComment db i postId userId p body now).1.parent_id = some q) ∧
    (CommentDepthLe1 db.comments →
      (db.comments.map CommentRow.id).Nodup →
      (∀ c ∈ db.comments, c.id ≠ i ∧ c.parent_id ≠ some i) →
      p ≠ some i →
      CommentDepthLe1
        (insertComment db i postId userId p body now).2.comments) := by
  constructor
  · intro pp parent q hpeq hf hq
    subst hpeq
    show resolveParentId db.comments (some pp) = some q
    simp [resolveParentId, hf, hq]
  · intro hInv hids hfresh hpi
    have hres_top : ∀ d ∈ db.comments,
        resolveParentId db.comments p = some d.id → d.parent_id = none := by
      intro d hd hr
      cases p with
      | none => simp [resolveParentId] at hr
      | some pp =>
        cases hf : db.comments.find? (fun c => c.id == pp) with
        | none =>
          simp only [resolveParentId, hf, Option.some_inj] at hr
          have := List.find?_eq_none.mp hf d hd
          simp [hr] at this
        | some parent =>
          have hpid : parent.id = pp := by
            have hx := List.find?_some hf
            simpa using hx
          have hpmem : parent ∈ db.comments := List.mem_of_find?_eq_some hf
          cases hpp : parent.parent_id with
          | none =>
            simp only [resolveParentId, hf, hpp, Option.some_inj] at hr
            have hdp : d = parent :=
              List.inj_on_of_nodup_map hids hd hpmem
                (by rw [hpid, hr])
            rw [hdp, hpp]
          | some q =>
            simp only [resolveParentId, hf, hpp, Option.some_inj] at hr
            exact hInv parent hpmem d hd (by rw [hpp, hr])
    have hres_ne : resolveParentId db.comments p ≠ some i := by
      cases p with
      | none => simp [resolveParentId]
      | some pp =>
        cases hf : db.comments.find? (fun c => c.id == pp) with
        | none =>
          simp only [resolveParentId, hf, ne_eq, Option.some_inj]
          intro hc
          exact hpi (by rw [hc])
        | some parent =>
          have hpid : parent.id = pp := by
            have hx := List.find?_some hf
            simpa using hx
          have hpmem : parent ∈ db.comments := List.mem_of_find?_eq_some hf
          cases hpp : parent.parent_id with
          | none =>
            simp only [resolveParentId, hf, hpp, ne_eq, Option.some_inj]
            intro hc
            exact (hfresh parent hpmem).1 (by rw [hpid, hc])
          | some q =>
            simp only [resolveParentId, hf, hpp, ne_eq, Option.some_inj]
            intro hc
            exact (hfresh parent hpmem).2 (by rw [hpp, hc])
    intro c hc d hd hcd
    have hnew : (insertComment db i postId userId p body now).2.comments =
        db.comments ++
          [{ id := i, post_id := postId, user_id := userId,
             parent_id := resolveParentId db.comments p,
             body := body, created_at := now }] := rfl
    rw [hnew] at hc hd
    rcases List.mem_append.mp hc with hc1 | hc1 <;>
      rcases List.mem_append.mp hd with hd1 | hd1
    · exact hInv c hc1 d hd1 hcd
    · have hd2 := List.mem_singleton.mp hd1
      subst hd2
      exact absurd hcd (hfresh c hc1).2
    · have hc2 := List.mem_singleton.mp hc1
      subst hc2
      exact hres_top d hd1 hcd
    · have hc2 := List.mem_singleton.mp hc1
      have hd2 := List.mem_singleton.mp hd1
      subst hc2
      subst hd2
      exact absurd hcd hres_ne

/-- Witness for C6: a reply whose declared parent is the reply `c2` is
re-parented to the top-level comment `c1`, and the stored tree keeps
depth at most one. -/
theorem comment_reply_flattening_witness :
    (insertComment commentsDB "c9" "p1" "u5" (some "c2") "deep" 9).1.parent_id
      = some "c1" ∧
    CommentDepthLe1
      (insertComment commentsDB "c9" "p1" "u5"
        (some "c2") "deep" 9).2.comments :=
  ⟨(comment_reply_flattening commentsDB "c9" "p1" "u5" (some "c2") "deep"
      9).1 "c2" replyComment "c1" rfl (by decide) rfl,
   (comment_reply_flattening commentsDB "c9" "p1" "u5" (some "c2") "deep"
      9).2 (by unfold CommentDepthLe1; decide) (by decide) (by decide)
      (by decide)⟩

/-- C9 counterexample: at a concrete store, creating a comment whose
declared parent matches no stored comment is rejected, not accepted: the
insert raises the foreign-key violation with the state unchanged (no row
stored, no counter moved), and the create route propagates the error
instead of returning a created comment. -/
theorem dangling_parent_rejected_counterexample :
    insertCommentD1 ["u5"] commentsDB "c7" "p1" "u5" (some "zz") "nice" 9 =
      Except.error ("FOREIGN KEY constraint failed", commentsDB) ∧
    postCommentRoute ["u5"] commentsDB "p1" "u5" "nice" (some "zz") "c7" 9 =
      Except.error ("FOREIGN KEY constraint failed", commentsDB) :=
  ⟨rfl, rfl⟩

/-- C9 amended: the flattening lookup finds no parent row and passes the
declared `parent_id` through unchanged to the insert, but the
`REFERENCES comments(id)` constraint on `parent_id` (table DDL in
`src/unnamed/part_000`, enforced by D1) rejects it: the statement errors
with the state unchanged — no comment row is stored and the post's
`comment_count` is not incremented — and the public create route
surfaces the error rather than creating a dangling reply. -/
theorem dangling_parent_comment_rejected (users : List String) (db : DB)
    (i postId userId pp body : String) (now : Nat)
    (hnone : ∀ c ∈ db.comments, c.id ≠ pp)
    (hne : pp ≠ i)
    (hfresh : ∀ c ∈ db.comments, c.id ≠ i)
    (hpost : ∃ q ∈ db.posts, q.id = postId)
    (huser : userId ∈ users) :
    resolveParentId db.comments (some pp) = some pp ∧
    insertCommentD1 users db i postId userId (some pp) body now =
      Except.error ("FOREIGN KEY constraint failed", db) ∧
    (∀ bodyText : String, (trimmed bodyText).length ≠ 0 →
      ¬(1000 < (trimmed bodyText).length) →
      postCommentRoute users db postId userId bodyText (some pp) i now =
        Except.error ("FOREIGN KEY constraint failed", db)) := by
  have hf : db.comments.find? (fun c => c.id == pp) = none := by
    rw [List.find?_eq_none]
    intro c hc
    simpa using hnone c hc
  have hres : resolveParentId db.comments (some pp) = some pp := by
    simp [resolveParentId, hf]
  have hid : db.comments.any (fun c => c.id == i) = false := by
    simp only [List.any_eq_false]
    intro c hc
    simpa using hfresh c hc
  have hpa : db.posts.any (fun p => p.id == postId) = true := by
    obtain ⟨q, hq, hqid⟩ := hpost
    simp only [List.any_eq_true]
    exact ⟨q, hq, by simpa using hqid⟩
  have hus : users.contains userId = true := by simpa using huser
  have hrp : db.comments.any (fun c => c.id == pp) = false := by
    simp only [List.any_eq_false]
    intro c hc
    simpa using hnone c hc
  have hppi : (pp == i) = false := by simpa using hne
  have hinsert : ∀ b : String,
      insertCommentD1 users db i postId userId (some pp) b now =
        Except.error ("FOREIGN KEY constraint failed", db) := by
    intro b
    simp only [insertCommentD1, hid, Bool.false_eq_true, if_false, hpa,
      if_true, hus, hres, hrp, hppi, Bool.or_self, Bool.false_or]
  refine ⟨hres, hinsert body, ?_⟩
  intro bodyText h1 h2
  simp [postCommentRoute, h1, h2, hinsert (trimmed bodyText)]

/-- Witness for the amended C9: a reply to the nonexistent parent `zz`
is rejected by the parent foreign key, the state stays unchanged, and
the route surfaces the error. -/
theorem dangling_parent_comment_rejected_witness :
    resolveParentId commentsDB.comments (some "zz") = some "zz" ∧
    insertCommentD1 ["u5"] commentsDB "c7" "p1" "u5" (some "zz") "nice" 9 =
      Except.error ("FOREIGN KEY constraint failed", commentsDB) ∧
    (∀ bodyText : String, (trimmed bodyText).length ≠ 0 →
      ¬(1000 < (trimmed bodyText).length) →
      postCommentRoute ["u5"] commentsDB "p1" "u5" bodyText
          (some "zz") "c7" 9 =
        Except.error ("FOREIGN KEY constraint failed", commentsDB)) :=
  dangling_parent_comment_rejected ["u5"] commentsDB "c7" "p1" "u5" "zz"
    "nice" 9 (by decide) (by decide) (by decide)
    ⟨{ samplePost with comment_count := 4 }, by decide, rfl⟩ (by decide)

end RenderQueue
